import Mathlib

/-!
# Verification of the tb-updater update pipeline

A shallow embedding of the `tb-updater` repository (a command-line updater
for the Thunderbird mail client) together with proofs about the properties
its specification states.  The embedding follows the Rust sources:

* `src/lib.rs` — the `Version` value type, its parser (`Version::from_str`)
  and its `Display` implementation;
* `src/internet.rs` — the release discoverer (`get_latest_release_number`)
  and the downloader (`download_version`);
* `src/application_state.rs` — the persisted `Config` record;
* `src/main.rs` — the orchestrating `main` function.

Machine integers (`i32`, `u64`) are embedded as `Int`/`Nat` with the range
checks Rust's `FromStr` implementations perform made explicit.
-/

namespace TbUpdater

/-! ## The Version value type (`src/lib.rs`) -/

/-- Comparison of two integers: the semantics of Rust `i32::cmp`, used by
the `#[derive(Ord)]` on `Version` for each field. -/
def icmp (a b : Int) : Ordering :=
  if a < b then .lt else if a = b then .eq else .gt

/-- The struct `Version { major: i32, minor: i32, patch: i32 }` from
`src/lib.rs`.  Components are embedded as `Int`; every component the
program ever constructs lies in the i32 range because `Version.from_str`
enforces that range when parsing. -/
structure Version where
  major : Int
  minor : Int
  patch : Int
deriving DecidableEq, Repr

/-- `Version::default()`: every field takes `i32::default() = 0`. -/
def Version.zero : Version := ⟨0, 0, 0⟩

/-- The `#[derive(PartialOrd, Ord)]` comparison on `Version`: lexicographic
field by field, in declaration order (major, minor, patch). -/
def Version.cmp (a b : Version) : Ordering :=
  match icmp a.major b.major with
  | .eq =>
    match icmp a.minor b.minor with
    | .eq => icmp a.patch b.patch
    | o => o
  | o => o

/-- Rust `a < b` on `Version` through the derived `Ord`. -/
def Version.lt (a b : Version) : Prop := Version.cmp a b = .lt

/-- Rust `a <= b` on `Version` through the derived `Ord`. -/
def Version.le (a b : Version) : Prop := Version.cmp a b ≠ .gt

instance : DecidableRel Version.lt :=
  fun a b => inferInstanceAs (Decidable (_ = _))

instance : DecidableRel Version.le :=
  fun a b => inferInstanceAs (Decidable (¬ _ = _))

/-- `Version.cmp` answers `lt` exactly on lexicographically smaller
tuples. -/
theorem Version.cmp_eq_lt_iff (a b : Version) :
    Version.cmp a b = .lt ↔
      (a.major < b.major ∨
        (a.major = b.major ∧
          (a.minor < b.minor ∨ (a.minor = b.minor ∧ a.patch < b.patch)))) := by
  cases a with
  | mk am an ap =>
    cases b with
    | mk bm bn bp =>
      simp only [Version.cmp, icmp]
      split_ifs <;> simp_all <;> omega

/-- `Version.cmp` answers `eq` exactly on equal values. -/
theorem Version.cmp_eq_eq_iff (a b : Version) :
    Version.cmp a b = .eq ↔ a = b := by
  cases a with
  | mk am an ap =>
    cases b with
    | mk bm bn bp =>
      simp only [Version.cmp, icmp, Version.mk.injEq]
      split_ifs <;> simp_all <;> omega

/-- `Version.cmp` answers `gt` exactly on lexicographically larger
tuples. -/
theorem Version.cmp_eq_gt_iff' (a b : Version) :
    Version.cmp a b = .gt ↔
      (b.major < a.major ∨
        (b.major = a.major ∧
          (b.minor < a.minor ∨ (b.minor = a.minor ∧ b.patch < a.patch)))) := by
  cases a with
  | mk am an ap =>
    cases b with
    | mk bm bn bp =>
      simp only [Version.cmp, icmp]
      split_ifs <;> simp_all <;> omega

/-- `Version.cmp` answers `gt` exactly when the arguments swapped answer
`lt`. -/
theorem Version.cmp_eq_gt_iff (a b : Version) :
    Version.cmp a b = .gt ↔ Version.cmp b a = .lt := by
  rw [Version.cmp_eq_gt_iff', Version.cmp_eq_lt_iff]

/-- `Version.le` spelt through `Version.lt` and equality. -/
theorem Version.le_iff_lt_or_eq (a b : Version) :
    Version.le a b ↔ Version.lt a b ∨ a = b := by
  unfold Version.le Version.lt
  rcases h : Version.cmp a b with _ | _ | _
  · simp [h]
  · simp [← Version.cmp_eq_eq_iff a b, h]
  · constructor
    · intro hc; exact absurd rfl hc
    · rintro (hlt | hEq)
      · exact absurd hlt (by simp [h])
      · rw [← Version.cmp_eq_eq_iff a b] at hEq; simp [h] at hEq

/-- The derived order is reflexive. -/
theorem Version.le_refl (a : Version) : Version.le a a := by
  rw [Version.le_iff_lt_or_eq]; exact Or.inr rfl

/-- The derived order is antisymmetric. -/
theorem Version.le_antisymm {a b : Version}
    (hab : Version.le a b) (hba : Version.le b a) : a = b := by
  rw [Version.le_iff_lt_or_eq] at hab hba
  rcases hab with hab | hab
  · rcases hba with hba | hba
    · rw [Version.lt, Version.cmp_eq_lt_iff] at hab hba
      cases a; cases b; simp_all [Version.mk.injEq]; omega
    · exact hba.symm
  · exact hab

/-- The derived order is transitive. -/
theorem Version.le_trans {a b c : Version}
    (hab : Version.le a b) (hbc : Version.le b c) : Version.le a c := by
  rw [Version.le_iff_lt_or_eq] at hab hbc ⊢
  rcases hab with hab | rfl
  · rcases hbc with hbc | rfl
    · left
      rw [Version.lt, Version.cmp_eq_lt_iff] at hab hbc ⊢
      cases a; cases b; cases c; simp_all; omega
    · exact Or.inl hab
  · exact hbc

/-- The derived order is total. -/
theorem Version.le_total (a b : Version) :
    Version.le a b ∨ Version.le b a := by
  rw [Version.le_iff_lt_or_eq, Version.le_iff_lt_or_eq]
  rw [Version.lt, Version.lt, Version.cmp_eq_lt_iff, Version.cmp_eq_lt_iff]
  cases a; cases b; simp_all; omega

instance : IsTotal Version Version.le := ⟨Version.le_total⟩

instance : IsTrans Version Version.le := ⟨fun _ _ _ => Version.le_trans⟩

/-! ## Integer parsing (Rust `FromStr` for `i32` and `u64`) -/

/-- The ASCII-digit test Rust's integer `FromStr` applies to every
character after the optional sign. -/
def isDigitChar (c : Char) : Bool := 48 ≤ c.toNat && c.toNat ≤ 57

/-- Magnitude denoted by a list of ASCII digits, most significant first. -/
def digitsVal (cs : List Char) : Nat :=
  cs.foldl (fun a c => 10 * a + (c.toNat - 48)) 0

/-- The digit-run part of Rust integer parsing: at least one character,
all ASCII digits, magnitude within `bound` (Rust checks overflow step by
step while accumulating; since the accumulator only grows, that is the
same as comparing the final magnitude against the type's bound). -/
def parseDigits (cs : List Char) (bound : Nat) : Option Nat :=
  if cs.isEmpty then none
  else if cs.all isDigitChar then
    if digitsVal cs ≤ bound then some (digitsVal cs) else none
  else none

/-- Rust `i32::from_str` (the `parts[i].parse()` calls in
`Version::from_str`): an optional `+`/`-` sign followed by one or more
ASCII digits, rejected on empty input, other characters, or overflow past
the i32 range. -/
def parseInt32 (cs : List Char) : Option Int :=
  match cs with
  | [] => none
  | c :: rest =>
    if c = '-' then (parseDigits rest 2147483648).map (fun n => -(n : Int))
    else if c = '+' then (parseDigits rest 2147483647).map (fun n => (n : Int))
    else (parseDigits (c :: rest) 2147483647).map (fun n => (n : Int))

/-- Rust `u64::from_str` (the Content-Length parse in `download_version`):
an optional `+` sign followed by one or more ASCII digits within the u64
range; a leading `-` is rejected. -/
def parseUInt64 (cs : List Char) : Option Nat :=
  match cs with
  | [] => none
  | c :: rest =>
    if c = '+' then parseDigits rest 18446744073709551615
    else parseDigits (c :: rest) 18446744073709551615

/-! ## `Version::from_str` and `Display` (`src/lib.rs`) -/

/-- Rust `str::split('.')` over the characters of the input: the fields
between the dots; an empty input yields one empty field, and consecutive
dots yield empty fields. -/
def splitDot : List Char → List (List Char)
  | [] => [[]]
  | c :: cs =>
    if c = '.' then [] :: splitDot cs
    else
      match splitDot cs with
      | [] => [[c]]
      | f :: rest => (c :: f) :: rest

/-- `Version::from_str` from `src/lib.rs`: split on `.`, require exactly
three fields, parse each field as an `i32` (any parse failure yields
`None` through the `?` operator). -/
def Version.fromChars (cs : List Char) : Option Version :=
  match splitDot cs with
  | [a, b, c] =>
    match parseInt32 a, parseInt32 b, parseInt32 c with
    | some x, some y, some z => some ⟨x, y, z⟩
    | _, _, _ => none
  | _ => none

/-- `Version::from_str` applied to a string. -/
def Version.from_str (s : String) : Option Version := Version.fromChars s.data

/-- The ASCII character of the decimal digit `d`. -/
def digitChar (d : Nat) : Char := Char.ofNat (48 + d)

/-- Fuel-indexed decimal rendering of a natural number (most significant
digit first); with fuel above `n` it is Rust's `{}` rendering of `n`. -/
def natDigitsAux : Nat → Nat → List Char
  | 0, _ => []
  | fuel + 1, n =>
    if n < 10 then [digitChar n]
    else natDigitsAux fuel (n / 10) ++ [digitChar (n % 10)]

/-- The decimal digits of `n`, most significant first; no sign, no
padding, `0` rendered as `"0"`. -/
def natDigits (n : Nat) : List Char := natDigitsAux (n + 1) n

/-- Rust `{}` formatting of an `i32` value. -/
def intChars (n : Int) : List Char :=
  if n < 0 then '-' :: natDigits n.natAbs else natDigits n.natAbs

/-- The `impl Display for Version` from `src/lib.rs`:
`format!("{}.{}.{}", major, minor, patch)`. -/
def Version.fmtChars (v : Version) : List Char :=
  intChars v.major ++ '.' :: intChars v.minor ++ '.' :: intChars v.patch

/-- `Version`'s `Display` output as a string. -/
def Version.display (v : Version) : String := String.mk v.fmtChars

/-! ## Laws of the digit functions -/

/-- `digitChar` of a decimal digit has the ASCII code `48 + d`. -/
theorem digitChar_toNat {d : Nat} (h : d ≤ 9) : (digitChar d).toNat = 48 + d := by
  interval_cases d <;> decide

/-- `digitChar` of a decimal digit is an ASCII digit. -/
theorem isDigitChar_digitChar {d : Nat} (h : d ≤ 9) :
    isDigitChar (digitChar d) = true := by
  interval_cases d <;> decide

/-- ASCII digits are not the dot. -/
theorem ne_dot_of_digit {c : Char} (h : isDigitChar c = true) : ¬ c = '.' := by
  intro hc; subst hc; exact absurd h (by decide)

/-- ASCII digits are not the minus sign. -/
theorem ne_minus_of_digit {c : Char} (h : isDigitChar c = true) : ¬ c = '-' := by
  intro hc; subst hc; exact absurd h (by decide)

/-- ASCII digits are not the plus sign. -/
theorem ne_plus_of_digit {c : Char} (h : isDigitChar c = true) : ¬ c = '+' := by
  intro hc; subst hc; exact absurd h (by decide)

/-- Appending one digit multiplies the magnitude by ten and adds it. -/
theorem digitsVal_append_singleton (cs : List Char) (c : Char) :
    digitsVal (cs ++ [c]) = 10 * digitsVal cs + (c.toNat - 48) := by
  simp [digitsVal, List.foldl_append]

/-- With enough fuel, `natDigitsAux` produces a nonempty all-digit list
denoting its input. -/
theorem natDigitsAux_spec :
    ∀ fuel n : Nat, n < fuel →
      natDigitsAux fuel n ≠ [] ∧
      (natDigitsAux fuel n).all isDigitChar = true ∧
      digitsVal (natDigitsAux fuel n) = n := by
  intro fuel
  induction fuel with
  | zero => intro n hn; omega
  | succ fuel ih =>
    intro n hn
    by_cases h10 : n < 10
    · refine ⟨by simp [natDigitsAux, h10], ?_, ?_⟩
      · simp [natDigitsAux, h10, isDigitChar_digitChar (show n ≤ 9 by omega)]
      · simp [natDigitsAux, h10, digitsVal, digitChar_toNat (show n ≤ 9 by omega)]
    · have hdiv : n / 10 < fuel := by omega
      obtain ⟨ih1, ih2, ih3⟩ := ih (n / 10) hdiv
      have hmod : n % 10 ≤ 9 := by omega
      refine ⟨by simp [natDigitsAux, h10], ?_, ?_⟩
      · simp [natDigitsAux, h10, List.all_append, ih2,
          isDigitChar_digitChar hmod]
      · simp only [natDigitsAux, if_neg h10]
        rw [digitsVal_append_singleton, ih3, digitChar_toNat hmod]
        omega

/-- `natDigits n` is a nonempty all-digit list denoting `n`. -/
theorem natDigits_spec (n : Nat) :
    natDigits n ≠ [] ∧
    (natDigits n).all isDigitChar = true ∧
    digitsVal (natDigits n) = n :=
  natDigitsAux_spec (n + 1) n (by omega)

/-! ## Laws of the parsers -/

/-- `parseDigits` succeeds on a nonempty all-digit list in range. -/
theorem parseDigits_eq_some {cs : List Char} {bound : Nat}
    (h1 : cs ≠ []) (h2 : cs.all isDigitChar = true)
    (h3 : digitsVal cs ≤ bound) :
    parseDigits cs bound = some (digitsVal cs) := by
  cases cs with
  | nil => exact absurd rfl h1
  | cons c rest => simp [parseDigits, h2, h3]

/-- `parseDigits` rejects a magnitude past the bound. -/
theorem parseDigits_eq_none_of_big {cs : List Char} {bound : Nat}
    (h3 : bound < digitsVal cs) :
    parseDigits cs bound = none := by
  cases cs with
  | nil => simp [digitsVal] at h3
  | cons c rest =>
    cases hall : (c :: rest).all isDigitChar with
    | true => simp [parseDigits, hall, Nat.not_le.mpr h3]
    | false => simp [parseDigits, hall]

/-- `parseInt32` succeeds on a nonempty all-digit list within the i32
range, returning its magnitude. -/
theorem parseInt32_eq_some {cs : List Char}
    (h1 : cs ≠ []) (h2 : cs.all isDigitChar = true)
    (h3 : digitsVal cs ≤ 2147483647) :
    parseInt32 cs = some ((digitsVal cs : Nat) : Int) := by
  cases cs with
  | nil => exact absurd rfl h1
  | cons c rest =>
    have hcd : isDigitChar c = true := by
      have := List.all_eq_true.mp h2 c (by simp)
      simpa using this
    simp only [parseInt32, if_neg (ne_minus_of_digit hcd),
      if_neg (ne_plus_of_digit hcd)]
    rw [parseDigits_eq_some (by simp) h2 h3]
    rfl

/-- `parseInt32` rejects an all-digit list past the i32 range. -/
theorem parseInt32_eq_none_of_big {cs : List Char}
    (h2 : cs.all isDigitChar = true)
    (h3 : 2147483647 < digitsVal cs) :
    parseInt32 cs = none := by
  cases cs with
  | nil => rfl
  | cons c rest =>
    have hcd : isDigitChar c = true := by
      have := List.all_eq_true.mp h2 c (by simp)
      simpa using this
    simp only [parseInt32, if_neg (ne_minus_of_digit hcd),
      if_neg (ne_plus_of_digit hcd)]
    rw [parseDigits_eq_none_of_big h3]
    rfl

/-- `parseInt32` of the decimal rendering of `m ≤ i32::MAX`. -/
theorem parseInt32_natDigits {m : Nat} (h : m ≤ 2147483647) :
    parseInt32 (natDigits m) = some ((m : Nat) : Int) := by
  obtain ⟨h1, h2, h3⟩ := natDigits_spec m
  rw [parseInt32_eq_some h1 h2 (by omega), h3]

/-! ## Laws of the splitter -/

/-- Splitting a dot-free list yields that one field. -/
theorem splitDot_of_no_dot {cs : List Char} (h : ∀ c ∈ cs, ¬ c = '.') :
    splitDot cs = [cs] := by
  induction cs with
  | nil => rfl
  | cons c cs ih =>
    have hc : ¬ c = '.' := h c (by simp)
    have ih' : splitDot cs = [cs] := ih (fun x hx => h x (by simp [hx]))
    simp [splitDot, hc, ih']

/-- Splitting past a dot-free prefix peels off that field. -/
theorem splitDot_append {xs rest : List Char} (h : ∀ c ∈ xs, ¬ c = '.') :
    splitDot (xs ++ '.' :: rest) = xs :: splitDot rest := by
  induction xs with
  | nil => simp [splitDot]
  | cons x xs ih =>
    have hx : ¬ x = '.' := h x (by simp)
    have ih' := ih (fun c hc => h c (by simp [hc]))
    simp [splitDot, hx, ih']

/-- The rendering of a digit run contains no dot. -/
theorem natDigits_no_dot (n : Nat) : ∀ c ∈ natDigits n, ¬ c = '.' :=
  fun c hc => ne_dot_of_digit (List.all_eq_true.mp (natDigits_spec n).2.1 c hc)

/-- Parsing the canonical three-field rendering of an in-range triple of
naturals recovers the triple. -/
theorem fromChars_fmt_triple (a b c : Nat)
    (ha : a ≤ 2147483647) (hb : b ≤ 2147483647) (hc : c ≤ 2147483647) :
    Version.fromChars
        (natDigits a ++ '.' :: natDigits b ++ '.' :: natDigits c) =
      some ⟨(a : Int), (b : Int), (c : Int)⟩ := by
  have e1 : splitDot (natDigits a ++ '.' :: (natDigits b ++ '.' :: natDigits c)) =
      [natDigits a, natDigits b, natDigits c] := by
    rw [splitDot_append (natDigits_no_dot a),
      splitDot_append (natDigits_no_dot b),
      splitDot_of_no_dot (natDigits_no_dot c)]
  simp [Version.fromChars, e1, parseInt32_natDigits ha,
    parseInt32_natDigits hb, parseInt32_natDigits hc]

/-! ## Specification-side field predicates -/

/-- A field that is a non-negative integer in the plain sense of the
specification: one or more ASCII digits and nothing else. -/
def nonnegIntField (cs : List Char) : Bool :=
  !cs.isEmpty && cs.all isDigitChar

/-- The specification-side formulation of a field Rust `i32` parsing
accepts: an optional sign followed by at least one ASCII digit, with the
magnitude inside the i32 range on that side of zero. -/
def signedI32Field (cs : List Char) : Bool :=
  match cs with
  | [] => false
  | c :: rest =>
    if c = '-' then
      !rest.isEmpty && rest.all isDigitChar && decide (digitsVal rest ≤ 2147483648)
    else if c = '+' then
      !rest.isEmpty && rest.all isDigitChar && decide (digitsVal rest ≤ 2147483647)
    else
      (c :: rest).all isDigitChar && decide (digitsVal (c :: rest) ≤ 2147483647)

/-- Success of `parseDigits` spelt as a boolean condition. -/
theorem parseDigits_isSome (cs : List Char) (bound : Nat) :
    (parseDigits cs bound).isSome =
      (!cs.isEmpty && cs.all isDigitChar && decide (digitsVal cs ≤ bound)) := by
  unfold parseDigits
  by_cases he : cs.isEmpty = true <;> by_cases ha : cs.all isDigitChar = true <;>
    by_cases hb : digitsVal cs ≤ bound <;> simp [he, ha, hb]

/-- Success of `parseInt32` coincides with the specification-side field
predicate. -/
theorem parseInt32_isSome (cs : List Char) :
    (parseInt32 cs).isSome = signedI32Field cs := by
  cases cs with
  | nil => rfl
  | cons c rest =>
    by_cases hm : c = '-'
    · have hd := parseDigits_isSome rest 2147483648
      rcases hq : parseDigits rest 2147483648 with _ | n <;>
        simp_all [parseInt32, signedI32Field]
    · by_cases hp : c = '+'
      · have hd := parseDigits_isSome rest 2147483647
        rcases hq : parseDigits rest 2147483647 with _ | n <;>
          simp_all [parseInt32, signedI32Field]
      · have hd := parseDigits_isSome (c :: rest) 2147483647
        rcases hq : parseDigits (c :: rest) 2147483647 with _ | n <;>
          simp_all [parseInt32, signedI32Field]

/-- `Version.fromChars` succeeds exactly when the input splits into three
fields that each parse as a (signed) 32-bit integer. -/
theorem fromChars_isSome_iff (cs : List Char) :
    (Version.fromChars cs).isSome = true ↔
      ((splitDot cs).length = 3 ∧
        ∀ f ∈ splitDot cs, signedI32Field f = true) := by
  unfold Version.fromChars
  have ia := parseInt32_isSome
  rcases hs : splitDot cs with _ | ⟨a, _ | ⟨b, _ | ⟨c, _ | ⟨d, tl⟩⟩⟩⟩ <;>
    simp only [List.length, List.mem_cons, List.not_mem_nil] <;>
    try simp
  rcases hpa : parseInt32 a with _ | x <;>
    rcases hpb : parseInt32 b with _ | y <;>
    rcases hpc : parseInt32 c with _ | z <;>
    simp_all [← ia a, ← ia b, ← ia c, hpa, hpb, hpc]

/-! ## The round-trip law -/

/-- **C6** Parsing the canonical `Display` text `"M.m.p"` of a valid
version — three non-negative (i32-ranged) components — yields the version
again. -/
theorem c6_version_roundtrip (v : Version)
    (h1 : 0 ≤ v.major) (h2 : v.major ≤ 2147483647)
    (h3 : 0 ≤ v.minor) (h4 : v.minor ≤ 2147483647)
    (h5 : 0 ≤ v.patch) (h6 : v.patch ≤ 2147483647) :
    Version.from_str v.display = some v := by
  obtain ⟨vm, vn, vp⟩ := v
  simp only at h1 h2 h3 h4 h5 h6
  show Version.fromChars (Version.fmtChars ⟨vm, vn, vp⟩) = some ⟨vm, vn, vp⟩
  have em : intChars vm = natDigits vm.natAbs := if_neg (by omega)
  have en : intChars vn = natDigits vn.natAbs := if_neg (by omega)
  have ep : intChars vp = natDigits vp.natAbs := if_neg (by omega)
  simp only [Version.fmtChars, em, en, ep]
  rw [fromChars_fmt_triple vm.natAbs vn.natAbs vp.natAbs
    (by omega) (by omega) (by omega)]
  simp only [Option.some.injEq, Version.mk.injEq]
  refine ⟨by omega, by omega, by omega⟩

/-! ## The release discoverer (`src/internet.rs`) -/

/-- `Client::get_latest_release_number`, abstracted over the anchor texts
the scraper extracts from the release index page: parse every candidate
with `Version::from_str` through `filter_map` (failures are silently
dropped), sort the survivors ascending with the derived order, and pop
the last element.  Rust's stable `sort` is modelled by insertion sort:
the order is total, transitive and antisymmetric, so every correct sort
produces the same list. -/
def latestRelease (texts : List String) : Option Version :=
  (List.insertionSort Version.le (texts.filterMap Version.from_str)).getLast?

/-- The last element of a list, when present, is a member. -/
theorem mem_of_getLast?_eq {α : Type} {l : List α} {a : α}
    (h : l.getLast? = some a) : a ∈ l := by
  induction l with
  | nil => simp at h
  | cons b l ih =>
    cases l with
    | nil => simp at h; simp [h]
    | cons c l' =>
      rw [List.getLast?_cons_cons] at h
      exact List.mem_cons_of_mem _ (ih h)

/-- In a list sorted by `Version.le`, the last element bounds every
element. -/
theorem sorted_getLast?_bound {l : List Version} (hs : l.Sorted Version.le)
    {m : Version} (hm : l.getLast? = some m) : ∀ x ∈ l, Version.le x m := by
  induction l with
  | nil => simp at hm
  | cons a l ih =>
    rcases List.sorted_cons.mp hs with ⟨ha, hs'⟩
    cases l with
    | nil =>
      simp only [List.getLast?_singleton, Option.some.injEq] at hm
      subst hm
      intro x hx
      rcases List.mem_singleton.mp hx with rfl
      exact Version.le_refl x
    | cons b l' =>
      rw [List.getLast?_cons_cons] at hm
      intro x hx
      rcases List.mem_cons.mp hx with rfl | hx'
      · exact ha m (mem_of_getLast?_eq hm)
      · exact ih hs' hm x hx'

example : Version.from_str "1.2.3" = some ⟨1, 2, 3⟩ := by decide
example : latestRelease ["1.0.0", "junk", "1.2.3", "1.2.0"] = some ⟨1, 2, 3⟩ := by decide
example : latestRelease ["junk", "also junk"] = none := by decide

/-! ## The downloader's progress total (`src/internet.rs`) -/

/-- The kind of progress indicator shown to the user.  `indicatif`'s
`ProgressBar::new(len)` is a determinate bar of length `len`; an
indeterminate spinner would be a different construction, which
`download_version` never performs. -/
inductive Progress
  | bar (total : Nat)
  | spinner
deriving DecidableEq, Repr

/-- The `total_size` computation in `Client::download_version`: the
Content-Length header text parsed as a `u64`, with `unwrap_or(0)` when
the header is absent or does not parse. -/
def totalSize (header : Option String) : Nat :=
  match header.bind (fun s => parseUInt64 s.data) with
  | some v => v
  | none => 0

/-- The progress indicator `download_version` constructs:
`ProgressBar::new(total_size)`, always a determinate bar. -/
def progressOf (header : Option String) : Progress := .bar (totalSize header)

example : progressOf (some "1024") = .bar 1024 := by decide
example : progressOf (some "junk") = .bar 0 := by decide
example : progressOf none = .bar 0 := by decide

/-! ## The extractor's path policy (§4.4 of the specification) -/

/-- One component of an archive entry path: a named component or an
upward `..` segment. -/
inductive Seg
  | name (s : String)
  | up
deriving DecidableEq, Repr

/-- Depth-tracking escape check: walking the path left to right, an
upward segment taken at depth zero leaves the destination directory. -/
def escapesFrom : Nat → List Seg → Bool
  | _, [] => false
  | depth, .name _ :: rest => escapesFrom (depth + 1) rest
  | 0, .up :: _ => true
  | depth + 1, .up :: rest => escapesFrom depth rest

/-- A normalized entry path escapes the destination when its upward
segments ever climb above it. -/
def escapes (p : List Seg) : Bool := escapesFrom 0 p

/-- Modelled from the spec: the Extractor of §4.4 — realised in the
source by `Archive::unpack` of the external `tar` crate, whose body is
not part of this repository.  Entries are expanded in order under the
destination; an entry whose normalized path escapes it is rejected with
`ExtractionError` naming the entry, and nothing is written for it or any
later entry.  The result is the list of relative paths written together
with the offending entry when there is one. -/
def extractEntries : List (List Seg) → List (List Seg) × Option (List Seg)
  | [] => ([], none)
  | e :: rest =>
    if escapes e then ([], some e)
    else
      let r := extractEntries rest
      (e :: r.1, r.2)

example : extractEntries [[.name "a"], [.up, .name "b"]] =
    ([[.name "a"]], some [.up, .name "b"]) := by decide
example : extractEntries [[.name "a", .up, .name "b"]] =
    ([[.name "a", .up, .name "b"]], none) := by decide

/-! ## The persisted configuration (`src/application_state.rs`) -/

/-- A JSON value, the shape `serde_json` parses a config file into. -/
inductive Json
  | null
  | bool (b : Bool)
  | num (n : Int)
  | str (s : String)
  | arr (elems : List Json)
  | obj (fields : List (String × Json))

/-- The first value bound to `key` in a JSON object's field list. -/
def jsonField : List (String × Json) → String → Option Json
  | [], _ => none
  | (k, v) :: rest, key => if k = key then some v else jsonField rest key

/-- The `Config` struct of `src/application_state.rs`: the persisted
record `{ version, dest_dir }`. -/
structure Config where
  version : Version
  dest_dir : String
deriving DecidableEq, Repr

/-- Modelled from the spec: deserialization of a `Version` from JSON per
the config-file shape of §6 (`{"major":int,"minor":int,"patch":int}`);
the body of the derived serde implementation is not part of this
repository.  Each component must be an integer in the i32 range. -/
def decodeVersion : Json → Option Version
  | .obj fields =>
    match jsonField fields "major", jsonField fields "minor",
        jsonField fields "patch" with
    | some (.num a), some (.num b), some (.num c) =>
      if -2147483648 ≤ a ∧ a ≤ 2147483647 ∧ -2147483648 ≤ b ∧
          b ≤ 2147483647 ∧ -2147483648 ≤ c ∧ c ≤ 2147483647 then
        some ⟨a, b, c⟩
      else none
    | _, _, _ => none
  | _ => none

/-- Modelled from the spec: deserialization of the `Config` record from
JSON per §6 — an object holding a `version` object and a `dest_dir`
string; any other shape is an error. -/
def decodeConfig : Json → Option Config
  | .obj fields =>
    match jsonField fields "version", jsonField fields "dest_dir" with
    | some vj, some (.str d) =>
      match decodeVersion vj with
      | some v => some ⟨v, d⟩
      | none => none
    | _, _ => none
  | _ => none

/-- The observable states of the config file `~/.config/tb-updater.json`
as `Config::load` distinguishes them: missing or unopenable, present but
not valid JSON, or parsed into a JSON value. -/
inductive ConfigFile
  | absent
  | malformed
  | parsed (j : Json)

/-- `Config::load`: `File::open(..).ok()?` yields `none` for a missing or
unreadable file, and `serde_json::from_reader(reader).ok()` yields `none`
both for text that is not JSON and for JSON not matching the record
shape. -/
def Config.load : ConfigFile → Option Config
  | .absent => none
  | .malformed => none
  | .parsed j => decodeConfig j

/-! ## The orchestrator (`src/main.rs`) -/

/-- What `Client::get_latest_release_number` came back with, as `main`
matches on it: a transport error with its message, `Ok(None)` when no
anchor text parsed, or the maximum version found. -/
inductive Discovery
  | netErr (msg : String)
  | noneParsed
  | found (v : Version)

/-- The input of one run of `main` with every I/O outcome fixed: the
command-line destination, the result of `Config::load`, the discovery
result, the outcome `download_version` would produce if invoked (`some
msg` is the error case), and whether `Config::save` would succeed. -/
structure RunEnv where
  cliDest : String
  loaded : Option Config
  discovery : Discovery
  extraction : Option String
  saveOk : Bool

/-- The observable outcome of a run of `main`: the process exit status,
the lines printed (stdout and stderr, in order), whether
`download_version` was invoked, the config record successfully written
(`none` when the file is untouched), and the destination directory passed
to `download_version` when it was invoked. -/
structure RunOutcome where
  exitCode : Int
  printed : List String
  downloadAttempted : Bool
  written : Option Config
  destUsed : Option String
deriving DecidableEq, Repr

/-- The `conf` binding in `main`: the loaded record, or on `None` the
first-run default `Config::new(args.dest_dir, Version::default())`. -/
def effectiveConfig (env : RunEnv) : Config :=
  match env.loaded with
  | some c => c
  | none => ⟨Version.zero, env.cliDest⟩

/-- The "already up-to-date" line `main` prints, built from both
versions. -/
def upToDateLine (latest current : Version) : String :=
  "Latest release is " ++ latest.display ++ " and we already have " ++
    current.display

/-- The orchestrating `main` of `src/main.rs`, step for step: load or
default the config; match on discovery, exiting `-1` on a network error
or an unparseable page; when `latest <= conf.version` print the
up-to-date line and exit `0` without downloading; otherwise announce and
run the download, exiting `-1` on error without touching the config; on
success set `conf.version = latest` and save, reporting but not failing
on a save error. -/
def runMain (env : RunEnv) : RunOutcome :=
  let conf := effectiveConfig env
  match env.discovery with
  | .netErr msg =>
    ⟨-1, ["Could not access thunderbird website " ++ msg], false, none, none⟩
  | .noneParsed =>
    ⟨-1, ["Could not parse version numbers"], false, none, none⟩
  | .found latest =>
    if Version.le latest conf.version then
      ⟨0, [upToDateLine latest conf.version], false, none, none⟩
    else
      match env.extraction with
      | some err =>
        ⟨-1, ["Downloading version " ++ latest.display,
              "Encountered the following error " ++ err],
          true, none, some conf.dest_dir⟩
      | none =>
        if env.saveOk then
          ⟨0, ["Downloading version " ++ latest.display,
               "Successfully updated thunderbird, please restart it"],
            true, some ⟨latest, conf.dest_dir⟩, some conf.dest_dir⟩
        else
          ⟨0, ["Downloading version " ++ latest.display,
               "Successfully updated thunderbird, please restart it",
               "Failed to save config/state"],
            true, none, some conf.dest_dir⟩

example :
    runMain ⟨"~/Downloads", none, .found ⟨1, 2, 3⟩, none, true⟩ =
      ⟨0, ["Downloading version " ++ Version.display ⟨1, 2, 3⟩,
           "Successfully updated thunderbird, please restart it"],
        true, some ⟨⟨1, 2, 3⟩, "~/Downloads"⟩, some "~/Downloads"⟩ := by decide

example :
    runMain ⟨"~/Downloads", some ⟨⟨2, 0, 0⟩, "/opt"⟩, .found ⟨1, 9, 9⟩, none, true⟩ =
      ⟨0, [upToDateLine ⟨1, 9, 9⟩ ⟨2, 0, 0⟩], false, none, none⟩ := by decide

/-- Strictly smaller versions are not bounds from above. -/
theorem Version.not_le_of_lt {a b : Version} (h : Version.lt a b) :
    ¬ Version.le b a :=
  fun hle => hle ((Version.cmp_eq_gt_iff b a).mpr h)

/-- A failing field makes `Version.fromChars` fail. -/
theorem fromChars_eq_none_of_field_none {cs f : List Char}
    (hf : f ∈ splitDot cs) (hnone : parseInt32 f = none) :
    Version.fromChars cs = none := by
  unfold Version.fromChars
  rcases hs : splitDot cs with _ | ⟨a, _ | ⟨b, _ | ⟨c, _ | ⟨d, tl⟩⟩⟩⟩ <;>
    try rfl
  rw [hs] at hf
  simp at hf
  rcases hf with rfl | rfl | rfl
  · simp [hnone]
  · rcases hpa : parseInt32 a with _ | x <;> simp [hnone, hpa]
  · rcases hpa : parseInt32 a with _ | x <;>
      rcases hpb : parseInt32 b with _ | y <;> simp [hnone, hpa, hpb]

/-! ## The claims -/

/-- **C1** When the download-and-extract step returns an error, `main`
prints the error and exits with a non-zero status without writing the
config record; the stored version is advanced to the discovered latest
version only in runs whose extraction completed without error. -/
theorem c1_no_state_change_on_extraction_error :
    (∀ env : RunEnv, ∀ latest : Version, ∀ err : String,
      env.discovery = .found latest →
      env.extraction = some err →
      (runMain env).downloadAttempted = true →
      (runMain env).exitCode ≠ 0 ∧
      ("Encountered the following error " ++ err) ∈ (runMain env).printed ∧
      (runMain env).written = none)
    ∧ (∀ env : RunEnv, ∀ c : Config, (runMain env).written = some c →
        env.extraction = none ∧
        ∃ latest, env.discovery = .found latest ∧ c.version = latest)
    ∧ runMain ⟨"d", none, .found ⟨1, 0, 0⟩, some "boom", true⟩ =
        ⟨-1, ["Downloading version " ++ Version.display ⟨1, 0, 0⟩,
              "Encountered the following error boom"],
          true, none, some "d"⟩ := by
  refine ⟨?_, ?_, by decide⟩
  · intro env latest err hd he hatt
    by_cases hle : Version.le latest (effectiveConfig env).version
    · exfalso
      simp [runMain, hd, hle] at hatt
    · simp [runMain, hd, he, hle]
  · intro env c hw
    rcases hd : env.discovery with msg | _ | latest <;>
      simp [runMain, hd] at hw
    by_cases hle : Version.le latest (effectiveConfig env).version
    · simp [hle] at hw
    · rcases he : env.extraction with _ | err
      · cases hs : env.saveOk
        · simp [hle, he, hs] at hw
        · simp [hle, he, hs] at hw
          exact ⟨rfl, latest, rfl, by simp [← hw]⟩
      · simp [hle, he] at hw

/-- **C2** With a persisted version `p` and a discovered latest version
`l ≤ p` under the derived order, `main` prints the line naming both
versions, attempts no download, leaves the config record untouched, and
exits with status `0`; `Version.le` covers both the equal case and the
downgrade case. -/
theorem c2_upgrade_gate (env : RunEnv) (c : Config) (latest : Version)
    (hl : env.loaded = some c)
    (hd : env.discovery = .found latest)
    (hle : Version.le latest c.version) :
    runMain env = ⟨0, [upToDateLine latest c.version], false, none, none⟩ := by
  have hc : effectiveConfig env = c := by simp [effectiveConfig, hl]
  simp [runMain, hd, hc, hle]

/-- **C2 witness** The gate at the equal pair `(1.2.3, 1.2.3)` and at the
downgrade pair `(latest 1.9.9, persisted 2.0.0)`. -/
theorem c2_upgrade_gate_witness :
    runMain ⟨"d", some ⟨⟨1, 2, 3⟩, "/opt"⟩, .found ⟨1, 2, 3⟩, none, true⟩ =
        ⟨0, [upToDateLine ⟨1, 2, 3⟩ ⟨1, 2, 3⟩], false, none, none⟩ ∧
      runMain ⟨"d", some ⟨⟨2, 0, 0⟩, "/opt"⟩, .found ⟨1, 9, 9⟩, none, true⟩ =
        ⟨0, [upToDateLine ⟨1, 9, 9⟩ ⟨2, 0, 0⟩], false, none, none⟩ :=
  ⟨c2_upgrade_gate ⟨"d", some ⟨⟨1, 2, 3⟩, "/opt"⟩, .found ⟨1, 2, 3⟩, none, true⟩
      ⟨⟨1, 2, 3⟩, "/opt"⟩ ⟨1, 2, 3⟩ rfl rfl (by decide),
    c2_upgrade_gate ⟨"d", some ⟨⟨2, 0, 0⟩, "/opt"⟩, .found ⟨1, 9, 9⟩, none, true⟩
      ⟨⟨2, 0, 0⟩, "/opt"⟩ ⟨1, 9, 9⟩ rfl rfl (by decide)⟩

/-- **C3 counterexample** `"-1.0.0"` splits into three fields whose first
is not a non-negative integer, yet `Version::from_str` accepts it: the
claimed equivalence with "each field parses as a non-negative integer"
fails at this input. -/
theorem c3_cex_negative_field_accepted :
    (Version.from_str "-1.0.0").isSome = true ∧
    Version.from_str "-1.0.0" = some ⟨-1, 0, 0⟩ ∧
    ¬ ((splitDot ("-1.0.0" : String).data).length = 3 ∧
        ∀ f ∈ splitDot ("-1.0.0" : String).data, nonnegIntField f = true) := by
  decide

/-- **C3 (amended)** `Version::from_str` returns a version exactly when
splitting on `.` yields exactly three fields each parsing as a *signed*
32-bit integer (optional sign, then digits, within the i32 range); it
returns `none` for `""`, `"1.0"`, `"1.0.0.0"`, `"a.b.c"`, `"1.0.x"` and
`"1..0"`, performs no whitespace trimming, and accepts leading zeros as
the same integer. -/
theorem c3_parse_characterization :
    (∀ s : String, (Version.from_str s).isSome = true ↔
      ((splitDot s.data).length = 3 ∧
        ∀ f ∈ splitDot s.data, signedI32Field f = true))
    ∧ Version.from_str "" = none
    ∧ Version.from_str "1.0" = none
    ∧ Version.from_str "1.0.0.0" = none
    ∧ Version.from_str "a.b.c" = none
    ∧ Version.from_str "1.0.x" = none
    ∧ Version.from_str "1..0" = none
    ∧ Version.from_str " 1.0.0" = none
    ∧ Version.from_str "01.002.3" = some ⟨1, 2, 3⟩ :=
  ⟨fun s => fromChars_isSome_iff s.data, by decide, by decide, by decide,
    by decide, by decide, by decide, by decide, by decide⟩

/-- **C4** The discoverer parses every candidate anchor text, silently
discards failures, sorts the survivors ascending and returns the last
element, a maximum of the surviving set; with no surviving candidate it
returns `none`.  On the spec's example list the result is `1.2.3`, and
duplicates collapse under the maximum. -/
theorem c4_discoverer_max :
    (∀ texts : List String,
      latestRelease texts = none ↔ texts.filterMap Version.from_str = [])
    ∧ (∀ texts : List String, ∀ m : Version, latestRelease texts = some m →
        m ∈ texts.filterMap Version.from_str ∧
        ∀ v ∈ texts.filterMap Version.from_str, Version.le v m)
    ∧ latestRelease ["1.0.0", "junk", "1.2.3", "1.2.0"] = some ⟨1, 2, 3⟩
    ∧ latestRelease ["junk"] = none
    ∧ latestRelease ["1.2.3", "1.2.3", "1.0.0"] = some ⟨1, 2, 3⟩ := by
  refine ⟨?_, ?_, by decide, by decide, by decide⟩
  · intro texts
    unfold latestRelease
    rw [List.getLast?_eq_none_iff]
    constructor
    · intro h
      have hperm :=
        List.perm_insertionSort Version.le (texts.filterMap Version.from_str)
      rw [h] at hperm
      exact hperm.symm.eq_nil
    · intro h
      rw [h]
      rfl
  · intro texts m hm
    unfold latestRelease at hm
    have hperm :=
      List.perm_insertionSort Version.le (texts.filterMap Version.from_str)
    have hsorted :=
      List.sorted_insertionSort Version.le (texts.filterMap Version.from_str)
    exact ⟨hperm.mem_iff.mp (mem_of_getLast?_eq hm),
      fun v hv => sorted_getLast?_bound hsorted hm v (hperm.mem_iff.mpr hv)⟩

/-- **C5 counterexample** The value `(-1, 5, 0)` — which the program can
construct, e.g. by parsing `"-1.5.0"` — has a positive component, yet it
compares *below* `0.0.0`: the clause "the zero value compares less than
any version with a positive component" fails on it. -/
theorem c5_cex_zero_not_least :
    Version.from_str "-1.5.0" = some ⟨-1, 5, 0⟩ ∧
    0 < (Version.mk (-1) 5 0).minor ∧
    ¬ Version.lt Version.zero ⟨-1, 5, 0⟩ ∧
    Version.lt ⟨-1, 5, 0⟩ Version.zero := by decide

/-- **C5 (amended)** The derived comparison on `Version` is a total order
— antisymmetric, transitive, total — that coincides with lexicographic
tuple order on (major, minor, patch); `(1,0,0) < (1,0,1) < (1,1,0) <
(2,0,0)`; and `0.0.0` compares less than any version all of whose
components are non-negative with at least one positive. -/
theorem c5_order_lex :
    (∀ a b : Version, Version.le a b → Version.le b a → a = b)
    ∧ (∀ a b c : Version, Version.le a b → Version.le b c → Version.le a c)
    ∧ (∀ a b : Version, Version.le a b ∨ Version.le b a)
    ∧ (∀ a b : Version, Version.lt a b ↔
        (a.major < b.major ∨ (a.major = b.major ∧
          (a.minor < b.minor ∨ (a.minor = b.minor ∧ a.patch < b.patch)))))
    ∧ (Version.lt ⟨1, 0, 0⟩ ⟨1, 0, 1⟩ ∧ Version.lt ⟨1, 0, 1⟩ ⟨1, 1, 0⟩ ∧
        Version.lt ⟨1, 1, 0⟩ ⟨2, 0, 0⟩)
    ∧ (∀ v : Version, 0 ≤ v.major → 0 ≤ v.minor → 0 ≤ v.patch →
        (0 < v.major ∨ 0 < v.minor ∨ 0 < v.patch) →
        Version.lt Version.zero v) :=
  ⟨fun _ _ => Version.le_antisymm, fun _ _ _ => Version.le_trans,
    Version.le_total, Version.cmp_eq_lt_iff, by decide,
    fun v h1 h2 h3 h4 => by
      rw [Version.lt, Version.cmp_eq_lt_iff]
      simp only [Version.zero]
      omega⟩

/-- **C6 witness** The round trip at `1.2.3`. -/
theorem c6_version_roundtrip_witness :
    Version.from_str (Version.display ⟨1, 2, 3⟩) = some ⟨1, 2, 3⟩ :=
  c6_version_roundtrip ⟨1, 2, 3⟩ (by decide) (by decide) (by decide)
    (by decide) (by decide) (by decide)

/-- **C7 counterexample** With no Content-Length header the downloader
still constructs a determinate progress bar — of total `0`, from
`unwrap_or(0)` — and not an indeterminate spinner, contradicting the
claimed indeterminate reporting. -/
theorem c7_cex_missing_header_gives_zero_bar :
    progressOf none = .bar 0 ∧ Progress.bar 0 ≠ Progress.spinner := by decide

/-- **C7 (amended)** A Content-Length header parsing as a non-negative
`u64` integer is used as the determinate progress total; otherwise —
header absent or unparseable — the total defaults to `0` with the bar
still determinate; an indeterminate indicator is never constructed. -/
theorem c7_content_length_total :
    (∀ h : Option String, ∀ s : String, ∀ v : Nat, h = some s →
      parseUInt64 s.data = some v → progressOf h = .bar v)
    ∧ (∀ h : Option String, h.bind (fun s => parseUInt64 s.data) = none →
        progressOf h = .bar 0)
    ∧ (∀ h : Option String, progressOf h ≠ .spinner)
    ∧ progressOf (some "1024") = .bar 1024
    ∧ progressOf (some "junk") = .bar 0
    ∧ progressOf none = .bar 0 := by
  refine ⟨?_, ?_, ?_, by decide, by decide, by decide⟩
  · rintro h s v rfl hp
    simp [progressOf, totalSize, hp]
  · intro h hp
    simp [progressOf, totalSize, hp]
  · intro h
    simp [progressOf]

/-- **C8** An archive containing an entry whose normalized path escapes
the destination directory is rejected with an `ExtractionError`, and no
path outside the destination is ever written. -/
theorem c8_path_escape_rejected (entries : List (List Seg)) (e : List Seg)
    (he : e ∈ entries) (hesc : escapes e = true) :
    (extractEntries entries).2.isSome = true ∧
    ∀ w ∈ (extractEntries entries).1, escapes w = false := by
  induction entries with
  | nil => simp at he
  | cons a rest ih =>
    by_cases ha : escapes a = true
    · simp [extractEntries, ha]
    · rcases List.mem_cons.mp he with rfl | he'
      · exact absurd hesc ha
      · obtain ⟨ih1, ih2⟩ := ih he'
        constructor
        · simp [extractEntries, ha, ih1]
        · intro w hw
          simp [extractEntries, ha] at hw
          rcases hw with rfl | hw'
          · simpa using ha
          · exact ih2 w hw'

/-- **C8 witness** An archive with one safe entry and one escaping
entry. -/
theorem c8_path_escape_rejected_witness :
    (extractEntries [[Seg.name "thunderbird"],
        [Seg.up, Seg.name "evil"]]).2.isSome = true ∧
    ∀ w ∈ (extractEntries [[Seg.name "thunderbird"],
        [Seg.up, Seg.name "evil"]]).1, escapes w = false :=
  c8_path_escape_rejected _ [Seg.up, Seg.name "evil"] (by decide) (by decide)

/-- **C9** `Version::from_str` rejects inputs one of whose fields, though
a syntactically valid non-negative decimal, exceeds the 32-bit signed
range: each component is parsed into an `i32`, and overflow fails the
parse. -/
theorem c9_overflow_rejected (s : String) (f : List Char)
    (hf : f ∈ splitDot s.data)
    (hdig : f.all isDigitChar = true)
    (hbig : 2147483647 < digitsVal f) :
    Version.from_str s = none :=
  fromChars_eq_none_of_field_none hf (parseInt32_eq_none_of_big hdig hbig)

/-- **C9 witness** `"4294967296.0.0"` is rejected: 2^32 overflows i32. -/
theorem c9_overflow_rejected_witness :
    Version.from_str "4294967296.0.0" = none :=
  c9_overflow_rejected "4294967296.0.0"
    ['4', '2', '9', '4', '9', '6', '7', '2', '9', '6']
    (by decide) (by decide) (by decide)

/-- **C10** `Config::load` returns `none` when the file is absent, when
it holds malformed JSON, and when it holds JSON of the wrong shape; in
every such run `main` silently synthesizes the first-run default
`{version = 0.0.0, dest_dir = cli argument}`, so a corrupted config
forces a re-download whose destination is the command-line argument. -/
theorem c10_load_failure_defaults :
    Config.load .absent = none
    ∧ Config.load .malformed = none
    ∧ (∀ j : Json, decodeConfig j = none → Config.load (.parsed j) = none)
    ∧ Config.load (.parsed (Json.str "not a record")) = none
    ∧ Config.load (.parsed (Json.obj [("version", Json.num 1)])) = none
    ∧ (∀ env : RunEnv, env.loaded = none →
        effectiveConfig env = ⟨Version.zero, env.cliDest⟩)
    ∧ (∀ env : RunEnv, ∀ latest : Version, env.loaded = none →
        env.discovery = .found latest →
        Version.lt Version.zero latest →
        (runMain env).downloadAttempted = true ∧
        (runMain env).destUsed = some env.cliDest) := by
  refine ⟨rfl, rfl, fun j h => h, rfl, rfl, ?_, ?_⟩
  · intro env hl
    simp [effectiveConfig, hl]
  · intro env latest hl hd hlt
    have hc : effectiveConfig env = ⟨Version.zero, env.cliDest⟩ := by
      simp [effectiveConfig, hl]
    have hnle : ¬ Version.le latest Version.zero := Version.not_le_of_lt hlt
    rcases he : env.extraction with _ | err
    · cases hs : env.saveOk <;> simp [runMain, hd, hnle, he, hs, hc]
    · simp [runMain, hd, hnle, he, hc]
example : Version.from_str "" = none := by decide
example : Version.from_str "1.0" = none := by decide
example : Version.from_str "1.0.0.0" = none := by decide
example : Version.from_str "a.b.c" = none := by decide
example : Version.from_str "1.0.x" = none := by decide
example : Version.from_str "1..0" = none := by decide
example : Version.from_str "01.02.003" = some ⟨1, 2, 3⟩ := by decide
example : Version.from_str "-1.0.0" = some ⟨-1, 0, 0⟩ := by decide
example : Version.from_str " 1.0.0" = none := by decide
example : Version.from_str "4294967296.0.0" = none := by decide
example : Version.display ⟨1, 2, 3⟩ = "1.2.3" := by decide
example : Version.display ⟨10, 0, 200⟩ = "10.0.200" := by decide

end TbUpdater
